import Mathlib

/- Verification of the scoring and evaluation pipeline of the CLAP zero-shot
tag-recommendation study. The definitions below are shallow embeddings of the
Python code in the notebooks `03_clap_baseline.ipynb`,
`03_clap_baseline_df.ipynb` and `03_clap_baseline_df_sbert.ipynb`:
NumPy float arithmetic is modelled over `ℝ` (metrics, which are ratios of
counts, over `ℚ`), Python dicts over association lists or `Option`-valued
lookup functions, and a fallible computation returns an `Option`. -/

namespace ClapTagging

/-- Dot product of two real vectors, truncating at the shorter list. Used to
build cosine similarity exactly as `sklearn.metrics.pairwise.cosine_similarity`
does for single rows. -/
noncomputable def dot : List ℝ → List ℝ → ℝ
  | a :: as, b :: bs => a * b + dot as bs
  | _, _ => 0

/-- Euclidean norm of a vector. -/
noncomputable def norm2 (v : List ℝ) : ℝ := Real.sqrt (dot v v)

/-- Cosine similarity `dot(a,b) / (|a| * |b|)` as computed by sklearn's
`cosine_similarity` on a pair of rows. For a zero-norm row sklearn's
`normalize` leaves the row at zero, so the similarity is 0; this coincides
with the `x / 0 = 0` convention of real division used here. -/
noncomputable def cosine (a b : List ℝ) : ℝ := dot a b / (norm2 a * norm2 b)

/-- Python's `str.lower()`, modelled as a character-wise map (the same
mapping as the library's string lowercasing, written with structural
recursion so that concrete instances reduce). -/
def lowerStr (s : String) : String := String.mk (s.data.map Char.toLower)

/-- Tags of one metadata row after `tag.strip().lower()` normalisation and
`set(tags)` deduplication (cell "Compute document frequency" of
`03_clap_baseline_df.ipynb`). -/
def docTags (row : List String) : List String :=
  (row.map (fun t => lowerStr t.trim)).dedup

/-- The counter `tag_document_counts`: for a tag `t`, the number of corpus
documents whose deduplicated tag set contains `t`. A tag is a key of the
Python `Counter` iff this count is positive. `total_documents` is the length
of the corpus list. -/
def tag_document_counts (corpus : List (List String)) (t : String) : ℕ :=
  (corpus.filter (fun row => t ∈ docTags row)).length

/-- The DF weighting formula
`(1 - ALPHA) + ALPHA * (log(1 + df) / log(1 + N))` from cell
"Create DF mapping" of `03_clap_baseline_df.ipynb` (`math.log` is the natural
logarithm). -/
noncomputable def df_score (ALPHA : ℝ) (df N : ℕ) : ℝ :=
  (1 - ALPHA) + ALPHA * (Real.log (1 + (df : ℝ)) / Real.log (1 + (N : ℝ)))

open Classical in
/-- The per-tag DF weight `tag_df_scores[tag]` of cell "Create DF mapping":
if `tag.lower()` is a key of the counter, the score is `df_score` of its
count; otherwise the default `1 - ALPHA` is stored. The `none` result models
the Python `ZeroDivisionError` that float division raises exactly when the
divisor `math.log(1 + total_documents)` is `0.0`; it is only reachable from
the matched branch, because only there is the division evaluated. -/
noncomputable def tag_df_scores (corpus : List (List String)) (ALPHA : ℝ)
    (tag : String) : Option ℝ :=
  if 0 < tag_document_counts corpus (lowerStr tag) then
    if Real.log (1 + (corpus.length : ℝ)) = 0 then none
    else some (df_score ALPHA (tag_document_counts corpus (lowerStr tag)) corpus.length)
  else some (1 - ALPHA)

/-- Python's `sorted(..., key=..., reverse=True)` compares keys in descending
order; this is the corresponding comparison relation. -/
def keyGE {α : Type*} (key : α → ℝ) (a b : α) : Prop := key b ≤ key a

noncomputable instance {α : Type*} (key : α → ℝ) : DecidableRel (keyGE key) :=
  fun _ _ => Classical.propDecidable _

instance {α : Type*} (key : α → ℝ) : IsTotal α (keyGE key) :=
  ⟨fun a b => le_total (key b) (key a)⟩

instance {α : Type*} (key : α → ℝ) : IsTrans α (keyGE key) :=
  ⟨fun _ _ _ h₁ h₂ => le_trans h₂ h₁⟩

/-- Python's `sorted` is a stable sort; with `reverse=True` it sorts
descending by the key while equal-key elements keep their original relative
order. Insertion sort with the `keyGE` comparison has exactly this behaviour
(an earlier element is inserted before every equal-key later element). -/
noncomputable def sortByKeyDesc {α : Type*} (key : α → ℝ) (l : List α) : List α :=
  List.insertionSort (keyGE key) l

/-- Maximum cosine similarity between the audio embedding and the sentence
variants of one tag (`np.max(similarities)` over a nonempty array; the
variant list always has 4 entries in the notebooks, so the `[]` case, on
which `np.max` raises, is unreachable and modelled as 0). -/
noncomputable def max_variant_sim (audio_embedding : List ℝ)
    (text_embeds : List (List ℝ)) : ℝ :=
  match text_embeds.map (cosine audio_embedding) with
  | [] => 0
  | s :: rest => rest.foldl max s

/-- The baseline recommender `get_tag_recommendations` of
`03_clap_baseline.ipynb`: per-tag max-variant similarity, stable descending
sort, truncation to `top_k`, then projection to the tag and score lists. The
dict `tag_embeddings` is modelled as an association list in insertion order
(built by iterating over the tag vocabulary). -/
noncomputable def get_tag_recommendations (audio_embedding : List ℝ)
    (tag_embeddings : List (String × List (List ℝ))) (top_k : ℕ) :
    List String × List ℝ :=
  let tag_similarities :=
    tag_embeddings.map (fun te => (te.1, max_variant_sim audio_embedding te.2))
  let sorted_tags := sortByKeyDesc (fun p => p.2) tag_similarities
  ((sorted_tags.take top_k).map (fun p => p.1),
   (sorted_tags.take top_k).map (fun p => p.2))

/-- One entry of the `tag_similarities` dict of
`get_tag_recommendations_df_weighted`. -/
structure ScoredTag where
  tag : String
  base_similarity : ℝ
  df_weight : ℝ
  weighted_similarity : ℝ

/-- The DF-weighted recommender `get_tag_recommendations_df_weighted` of
`03_clap_baseline_df.ipynb` (identical in `03_clap_baseline_df_sbert.ipynb`):
the base similarity is multiplied by `tag_df_scores.get(tag, 1.0)` and tags
are sorted by the weighted similarity; the result is the four projected
lists `(top_tags, top_scores, top_base_scores, top_df_weights)`. -/
noncomputable def get_tag_recommendations_df_weighted (audio_embedding : List ℝ)
    (tag_embeddings : List (String × List (List ℝ)))
    (tag_df : String → Option ℝ) (top_k : ℕ) :
    List String × List ℝ × List ℝ × List ℝ :=
  let tag_similarities := tag_embeddings.map (fun te =>
    let base := max_variant_sim audio_embedding te.2
    let w := (tag_df te.1).getD 1
    ScoredTag.mk te.1 base w (base * w))
  let sorted_tags := sortByKeyDesc ScoredTag.weighted_similarity tag_similarities
  ((sorted_tags.take top_k).map ScoredTag.tag,
   (sorted_tags.take top_k).map ScoredTag.weighted_similarity,
   (sorted_tags.take top_k).map ScoredTag.base_similarity,
   (sorted_tags.take top_k).map ScoredTag.df_weight)

/-- Per-clip precision `len(hits) / 10.0`; the notebooks always evaluate at
the cutoff `top_k = 10` and divide by the literal `10.0`. -/
def precision_at_10 (numHits : ℕ) : ℚ := (numHits : ℚ) / 10

/-- Per-clip recall
`len(hits) / len(ground_truth_tags) if ground_truth_tags else 0.0`. -/
def clip_recall (hits ground_truth_tags : List String) : ℚ :=
  if ground_truth_tags ≠ [] then (hits.length : ℚ) / ground_truth_tags.length
  else 0

/-- Per-clip F1
`2 * (precision * recall) / (precision + recall) if (precision + recall) > 0 else 0.0`. -/
def clip_f1 (p r : ℚ) : ℚ :=
  if p + r > 0 then 2 * (p * r) / (p + r)
  else 0

/-- Exact-mode hits `list(set(predicted_tags_lower) & set(ground_truth_tags))`
(both sides lowercased). The Python value is a set materialised as a list in
unspecified order; it is modelled as the deduplicated filtered list, which
has the same members and the same cardinality. -/
def exact_hits (predicted_tags ground_truth_tags : List String) : List String :=
  ((predicted_tags.map lowerStr).filter
    (fun t => t ∈ ground_truth_tags.map lowerStr)).dedup

open Classical in
/-- One step of the inner loop of `compute_semantic_hits`
(`03_clap_baseline_df_sbert.ipynb`): a ground-truth tag without a phrase
embedding is skipped; otherwise the running `(max_similarity, best_match)`
pair is updated when the similarity strictly exceeds the running maximum. -/
noncomputable def gt_step (tag_to_sbert : String → Option (List ℝ))
    (pred_embedding : List ℝ) (acc : ℝ × Option String) (gt_tag : String) :
    ℝ × Option String :=
  match tag_to_sbert gt_tag with
  | none => acc
  | some gt_embedding =>
    if cosine pred_embedding gt_embedding > acc.1 then
      (cosine pred_embedding gt_embedding, some gt_tag)
    else acc

/-- The inner loop of `compute_semantic_hits` over all ground-truth tags,
started from `max_similarity = 0.0`, `best_match = None`. -/
noncomputable def best_gt_match (tag_to_sbert : String → Option (List ℝ))
    (pred_embedding : List ℝ) (gts : List String) : ℝ × Option String :=
  gts.foldl (gt_step tag_to_sbert pred_embedding) (0, none)

open Classical in
/-- The outer loop of `compute_semantic_hits` over the (lowercased) predicted
tags: a predicted tag without a phrase embedding is skipped (`continue`);
otherwise it is appended to `hits`, together with a record in
`semantic_matches`, iff its best ground-truth similarity reaches the
threshold. The structural recursion produces the `hits` and
`semantic_matches` lists in the same order as the Python appends. -/
noncomputable def semantic_hits_aux (tag_to_sbert : String → Option (List ℝ))
    (τ : ℝ) (gts : List String) :
    List String → List String × List (String × Option String × ℝ)
  | [] => ([], [])
  | p :: rest =>
    let restR := semantic_hits_aux tag_to_sbert τ gts rest
    match tag_to_sbert p with
    | none => restR
    | some pe =>
      let bm := best_gt_match tag_to_sbert pe gts
      if bm.1 ≥ τ then (p :: restR.1, (p, bm.2, bm.1) :: restR.2) else restR

/-- `compute_semantic_hits(predicted_tags, ground_truth_tags, tag_to_sbert,
similarity_threshold)`: both tag lists are lowercased, then the hit and match
lists are accumulated. Its output is the complete return value of the Python
function: a pair of the `hits` list and the `semantic_matches` list. -/
noncomputable def compute_semantic_hits (tag_to_sbert : String → Option (List ℝ))
    (τ : ℝ) (predicted_tags ground_truth_tags : List String) :
    List String × List (String × Option String × ℝ) :=
  semantic_hits_aux tag_to_sbert τ (ground_truth_tags.map lowerStr)
    (predicted_tags.map lowerStr)

/-- The tag-embedding loading step of `03_clap_baseline_df.ipynb` (cell
"Load pre-computed tag embeddings"): when `len(clap_tags)` differs from the
first dimension of the embeddings array, both are truncated to the smaller
length (after printing a WARNING) and the run continues; otherwise both are
kept as loaded. -/
def load_tag_resources (clap_tags : List String)
    (tag_embeddings_array : List (List (List ℝ))) :
    List String × List (List (List ℝ)) :=
  if clap_tags.length ≠ tag_embeddings_array.length then
    (clap_tags.take (min clap_tags.length tag_embeddings_array.length),
     tag_embeddings_array.take (min clap_tags.length tag_embeddings_array.length))
  else (clap_tags, tag_embeddings_array)

/-- A phrase-embedding table assigning the zero vector to the tag "a"; used
to exercise the zero-norm edge case of semantic matching. -/
noncomputable def zeroEmbedLookup : String → Option (List ℝ) :=
  fun s => if s = "a" then some [(0 : ℝ)] else none

/-- A phrase-embedding table assigning the unit vector `[1]` to every tag. -/
noncomputable def oneEmbedLookup : String → Option (List ℝ) :=
  fun _ => some [(1 : ℝ)]

/-- A phrase-embedding table that covers only the tag "b"; the tag "a" has
no phrase embedding. -/
noncomputable def bOnlyLookup : String → Option (List ℝ) :=
  fun s => if s = "b" then some [(1 : ℝ)] else none

/-- The document count of a tag never exceeds the total document count. -/
theorem tag_document_counts_le (corpus : List (List String)) (t : String) :
    tag_document_counts corpus t ≤ corpus.length := by
  unfold tag_document_counts
  exact List.length_filter_le _ _

/-- C1: for a corpus with at least one document and `ALPHA ∈ [0,1]`, the DF
weight of every tag equals `(1-ALPHA) + ALPHA * (log(1+df) / log(1+N))` where
`df` is the tag's document count; in particular a tag with `df = 0` receives
exactly `1 - ALPHA`. -/
theorem tag_df_scores_formula (corpus : List (List String)) (ALPHA : ℝ)
    (tag : String) (hN : 1 ≤ corpus.length) (_hA : 0 ≤ ALPHA ∧ ALPHA ≤ 1) :
    tag_df_scores corpus ALPHA tag
      = some (df_score ALPHA (tag_document_counts corpus (lowerStr tag)) corpus.length)
    ∧ (tag_document_counts corpus (lowerStr tag) = 0 →
        tag_df_scores corpus ALPHA tag = some (1 - ALPHA)) := by
  unfold tag_df_scores
  have hlog : Real.log (1 + (corpus.length : ℝ)) ≠ 0 := by
    have h1 : (1 : ℝ) ≤ (corpus.length : ℝ) := by exact_mod_cast hN
    exact ne_of_gt (Real.log_pos (by linarith))
  by_cases hc : 0 < tag_document_counts corpus (lowerStr tag)
  · rw [if_pos hc, if_neg hlog]
    exact ⟨rfl, fun h0 => by omega⟩
  · rw [if_neg hc]
    have h0 : tag_document_counts corpus (lowerStr tag) = 0 := by omega
    refine ⟨?_, fun _ => rfl⟩
    rw [h0]
    unfold df_score
    simp

/-- Witness for C1 at the one-document corpus `[["a"]]`, `ALPHA = 1/2` and
the unseen tag "b". -/
theorem tag_df_scores_formula_witness :
    1 ≤ ([["a"]] : List (List String)).length
    ∧ (0 ≤ (1/2 : ℝ) ∧ (1/2 : ℝ) ≤ 1)
    ∧ (tag_df_scores [["a"]] (1/2) "b"
        = some (df_score (1/2) (tag_document_counts [["a"]] (lowerStr "b"))
            ([["a"]] : List (List String)).length)
      ∧ (tag_document_counts [["a"]] (lowerStr "b") = 0 →
          tag_df_scores [["a"]] (1/2) "b" = some (1 - 1/2))) :=
  ⟨by decide, by norm_num,
    tag_df_scores_formula [["a"]] (1/2) "b" (by decide) (by norm_num)⟩

/-- C9: for `ALPHA ∈ [0,1]`, every DF weight the estimator hands back lies in
the closed interval `[1 - ALPHA, 1]`. -/
theorem tag_df_scores_bounds (corpus : List (List String)) (ALPHA : ℝ)
    (tag : String) (h0 : 0 ≤ ALPHA) (_h1 : ALPHA ≤ 1) :
    ∀ w, tag_df_scores corpus ALPHA tag = some w → 1 - ALPHA ≤ w ∧ w ≤ 1 := by
  intro w hw
  unfold tag_df_scores at hw
  by_cases hc : 0 < tag_document_counts corpus (lowerStr tag)
  · rw [if_pos hc] at hw
    by_cases hlog : Real.log (1 + (corpus.length : ℝ)) = 0
    · rw [if_pos hlog] at hw
      exact absurd hw (by simp)
    · rw [if_neg hlog] at hw
      have hw' := Option.some.inj hw
      have hdfN : tag_document_counts corpus (lowerStr tag) ≤ corpus.length :=
        tag_document_counts_le corpus (lowerStr tag)
      have hN : 1 ≤ corpus.length := le_trans hc hdfN
      have hNR : (1 : ℝ) < 1 + (corpus.length : ℝ) := by
        have : (1 : ℝ) ≤ (corpus.length : ℝ) := by exact_mod_cast hN
        linarith
      have hlogN : 0 < Real.log (1 + (corpus.length : ℝ)) := Real.log_pos hNR
      have hnum0 : 0 ≤ Real.log (1 + (tag_document_counts corpus (lowerStr tag) : ℝ)) :=
        Real.log_nonneg (le_add_of_nonneg_right (Nat.cast_nonneg _))
      have hnumle : Real.log (1 + (tag_document_counts corpus (lowerStr tag) : ℝ))
          ≤ Real.log (1 + (corpus.length : ℝ)) := by
        refine Real.log_le_log (by positivity) ?_
        have : (tag_document_counts corpus (lowerStr tag) : ℝ) ≤ (corpus.length : ℝ) := by
          exact_mod_cast hdfN
        linarith
      have hfrac0 : 0 ≤ Real.log (1 + (tag_document_counts corpus (lowerStr tag) : ℝ))
          / Real.log (1 + (corpus.length : ℝ)) := div_nonneg hnum0 (le_of_lt hlogN)
      have hfrac1 : Real.log (1 + (tag_document_counts corpus (lowerStr tag) : ℝ))
          / Real.log (1 + (corpus.length : ℝ)) ≤ 1 := (div_le_one hlogN).mpr hnumle
      rw [← hw']
      unfold df_score
      constructor
      · nlinarith
      · nlinarith
  · rw [if_neg hc] at hw
    have hw' := Option.some.inj hw
    rw [← hw']
    exact ⟨le_refl _, by linarith⟩

/-- Witness for C9 at the one-document corpus `[["a"]]` and `ALPHA = 1/2`. -/
theorem tag_df_scores_bounds_witness :
    0 ≤ (1/2 : ℝ) ∧ (1/2 : ℝ) ≤ 1
    ∧ (∀ w, tag_df_scores [["a"]] (1/2) "a" = some w → 1 - 1/2 ≤ w ∧ w ≤ 1) :=
  ⟨by norm_num, by norm_num,
    tag_df_scores_bounds [["a"]] (1/2) "a" (by norm_num) (by norm_num)⟩

/-- C5 counterexample: with a zero-document corpus the DF weight computation
does not fail; at `ALPHA = 0.7` it completes and hands back the weight
`0.3` for the tag "drum" (every tag falls into the unmatched branch, so the
division is never evaluated). -/
theorem tag_df_scores_empty_corpus_cex :
    tag_df_scores [] (7/10) "drum" = some (3/10) := by
  unfold tag_df_scores
  rw [if_neg (by decide)]
  norm_num

/-- C5 amended: on an empty corpus the DF weight computation completes for
every `ALPHA` and every tag, returning the default weight `1 - ALPHA`; no
divide-by-zero error is reached. -/
theorem tag_df_scores_empty_corpus_default (ALPHA : ℝ) (tag : String) :
    tag_df_scores [] ALPHA tag = some (1 - ALPHA) := by
  unfold tag_df_scores
  have h : tag_document_counts [] (lowerStr tag) = 0 := rfl
  rw [if_neg (by simp [h])]

/-- C3: per-clip metrics. Precision at the cutoff (fixed at 10 in the
notebooks) is `|hits| / 10`; recall is `|hits| / |groundTruth|` for nonempty
ground truth and exactly 0 (not NaN or an error) for empty ground truth; F1
is `2PR/(P+R)` when `P+R > 0` and exactly 0 when `P+R = 0`. The last
conjunct checks the hand-computed case P = 3/10, R = 1/2, F1 = 3/8. -/
theorem per_clip_metrics (hits gt : List String) :
    precision_at_10 hits.length = (hits.length : ℚ) / 10
    ∧ (gt ≠ [] → clip_recall hits gt = (hits.length : ℚ) / gt.length)
    ∧ (gt = [] → clip_recall hits gt = 0)
    ∧ (precision_at_10 hits.length + clip_recall hits gt > 0 →
        clip_f1 (precision_at_10 hits.length) (clip_recall hits gt)
          = 2 * (precision_at_10 hits.length * clip_recall hits gt)
            / (precision_at_10 hits.length + clip_recall hits gt))
    ∧ (precision_at_10 hits.length + clip_recall hits gt = 0 →
        clip_f1 (precision_at_10 hits.length) (clip_recall hits gt) = 0)
    ∧ clip_f1 (3/10) (1/2) = 3/8 := by
  refine ⟨rfl, ?_, ?_, ?_, ?_, ?_⟩
  · intro h
    unfold clip_recall
    rw [if_pos h]
  · intro h
    unfold clip_recall
    rw [if_neg (by simp [h])]
  · intro h
    unfold clip_f1
    rw [if_pos h]
  · intro h
    unfold clip_f1
    rw [if_neg (by rw [h]; exact lt_irrefl 0)]
  · unfold clip_f1
    norm_num

/-- Witness for C3: recall of a clip with one hit and empty ground truth is
exactly 0, and with ground truth of size 2 it is 1/2. -/
theorem per_clip_metrics_witness :
    clip_recall ["a"] [] = 0 ∧ clip_recall ["a"] ["b", "c"] = (1 : ℚ) / 2 := by
  constructor
  · exact (per_clip_metrics ["a"] []).2.2.1 rfl
  · have h := (per_clip_metrics ["a"] ["b", "c"]).2.1 (by decide)
    rw [h]
    norm_num

/-- C7 counterexample: a vocabulary of length 3 loaded against an embedding
array of length 2 does not abort the run; the loader completes, truncating
the vocabulary to the first 2 tags and keeping both embedding rows. -/
theorem load_tag_resources_mismatch_cex :
    load_tag_resources ["a", "b", "c"] [[[1]], [[2]]]
      = (["a", "b"], [[[1]], [[2]]]) := by
  unfold load_tag_resources
  rw [if_pos (by decide)]
  rfl

/-- C7 amended: a length mismatch between the tag vocabulary and the loaded
embedding array is not fatal; the loader always continues, returning the
vocabulary and the embedding array truncated to the smaller of the two
lengths (with only a printed warning in the mismatch case). -/
theorem load_tag_resources_truncates (clap_tags : List String)
    (emb : List (List (List ℝ))) :
    (load_tag_resources clap_tags emb).1
        = clap_tags.take (min clap_tags.length emb.length)
    ∧ (load_tag_resources clap_tags emb).2
        = emb.take (min clap_tags.length emb.length) := by
  unfold load_tag_resources
  by_cases h : clap_tags.length = emb.length
  · rw [if_neg (by simp [h])]
    constructor
    · rw [← h, min_self, List.take_length]
    · rw [h, min_self, List.take_length]
  · rw [if_pos h]
    exact ⟨rfl, rfl⟩

/-- The stable descending sort is a permutation of its input. -/
theorem sortByKeyDesc_perm {α : Type*} (key : α → ℝ) (l : List α) :
    (sortByKeyDesc key l).Perm l :=
  List.perm_insertionSort _ l

/-- The stable descending sort preserves length. -/
theorem sortByKeyDesc_length {α : Type*} (key : α → ℝ) (l : List α) :
    (sortByKeyDesc key l).length = l.length :=
  (sortByKeyDesc_perm key l).length_eq

/-- The output of the stable descending sort is sorted: keys are
non-increasing along the list. -/
theorem sortByKeyDesc_pairwise {α : Type*} (key : α → ℝ) (l : List α) :
    (sortByKeyDesc key l).Pairwise (keyGE key) :=
  List.sorted_insertionSort _ l

/-- Stability of the descending sort: a pair that occurs in order in the
input and satisfies the comparison stays in order in the output. -/
theorem pair_sublist_sortByKeyDesc {α : Type*} (key : α → ℝ) {a b : α}
    {l : List α} (hab : keyGE key a b) (h : [a, b].Sublist l) :
    [a, b].Sublist (sortByKeyDesc key l) :=
  List.pair_sublist_insertionSort hab h

/-- In a duplicate-free list, a pair that occurs in order and whose two
members both survive `take k` still occurs in order in `take k`. -/
theorem pair_sublist_take {α : Type*} {a b : α} :
    ∀ (l : List α) (k : ℕ), l.Nodup → [a, b].Sublist l →
      a ∈ l.take k → b ∈ l.take k → [a, b].Sublist (l.take k) := by
  intro l
  induction l with
  | nil =>
    intro k _ _ ha _
    simp at ha
  | cons x xs ih =>
    intro k hnd hsub ha hb
    cases k with
    | zero => simp at ha
    | succ k =>
      rw [List.take_succ_cons] at ha hb ⊢
      have hx : x ∉ xs := (List.nodup_cons.mp hnd).1
      have hnd' : xs.Nodup := (List.nodup_cons.mp hnd).2
      cases hsub with
      | cons _ h =>
        have hamem : a ∈ xs := h.subset (by simp)
        have hbmem : b ∈ xs := h.subset (by simp)
        have ha' : a ∈ xs.take k := by
          rcases List.mem_cons.mp ha with h1 | h1
          · exact absurd (h1 ▸ hamem) hx
          · exact h1
        have hb' : b ∈ xs.take k := by
          rcases List.mem_cons.mp hb with h1 | h1
          · exact absurd (h1 ▸ hbmem) hx
          · exact h1
        exact (ih k hnd' h ha' hb').cons x
      | cons₂ _ h =>
        have hbmem : b ∈ xs := List.singleton_sublist.mp h
        have hb' : b ∈ xs.take k := by
          rcases List.mem_cons.mp hb with h1 | h1
          · exact absurd (h1 ▸ hbmem) hx
          · exact h1
        exact (List.singleton_sublist.mpr hb').cons₂ _

/-- Shape of the ranked, truncated, projected output shared by both
recommenders: the tag list has length `min k |input|`, the tag list is
duplicate-free whenever the input tags are, and the projected keys are
non-increasing. -/
theorem topk_properties {α : Type*} (key : α → ℝ) (tagOf : α → String)
    (l : List α) (k : ℕ) (hnd : (l.map tagOf).Nodup) :
    (((sortByKeyDesc key l).take k).map tagOf).length = min k l.length
    ∧ (((sortByKeyDesc key l).take k).map tagOf).Nodup
    ∧ (((sortByKeyDesc key l).take k).map key).Pairwise (fun a b => b ≤ a) := by
  refine ⟨?_, ?_, ?_⟩
  · rw [List.length_map, List.length_take, sortByKeyDesc_length]
  · have h1 : ((sortByKeyDesc key l).map tagOf).Nodup :=
      ((sortByKeyDesc_perm key l).map tagOf).nodup_iff.mpr hnd
    rw [List.map_take]
    exact List.Nodup.sublist (List.take_sublist _ _) h1
  · rw [List.pairwise_map]
    exact List.Pairwise.sublist (List.take_sublist _ _) (sortByKeyDesc_pairwise key l)

/-- C2: for both recommenders, the returned tag list has length exactly
`min(top_k, |vocabulary|)`, contains no duplicate tags (the tag-embedding
dict has unique keys), and the returned scores are monotonically
non-increasing from the first to the last element. -/
theorem recommendations_shape (audio : List ℝ)
    (tagEmb : List (String × List (List ℝ))) (tag_df : String → Option ℝ)
    (k : ℕ) (_hk : 1 ≤ k) (hnd : (tagEmb.map Prod.fst).Nodup) :
    ((get_tag_recommendations audio tagEmb k).1.length = min k tagEmb.length
      ∧ (get_tag_recommendations audio tagEmb k).1.Nodup
      ∧ (get_tag_recommendations audio tagEmb k).2.Pairwise (fun a b => b ≤ a))
    ∧ ((get_tag_recommendations_df_weighted audio tagEmb tag_df k).1.length
          = min k tagEmb.length
      ∧ (get_tag_recommendations_df_weighted audio tagEmb tag_df k).1.Nodup
      ∧ (get_tag_recommendations_df_weighted audio tagEmb tag_df k).2.1.Pairwise
          (fun a b => b ≤ a)) := by
  constructor
  · have hmap : ((tagEmb.map
        (fun te => (te.1, max_variant_sim audio te.2))).map
          (fun p : String × ℝ => p.1)).Nodup := by
      rw [List.map_map]
      exact hnd
    have h := topk_properties (fun p : String × ℝ => p.2)
      (fun p : String × ℝ => p.1)
      (tagEmb.map (fun te => (te.1, max_variant_sim audio te.2))) k hmap
    refine ⟨?_, h.2.1, h.2.2⟩
    show (((sortByKeyDesc (fun p : String × ℝ => p.2)
        (tagEmb.map (fun te => (te.1, max_variant_sim audio te.2)))).take k).map
          (fun p : String × ℝ => p.1)).length = min k tagEmb.length
    rw [List.length_map, List.length_take, sortByKeyDesc_length, List.length_map]
  · have hmap : ((tagEmb.map (fun te => ScoredTag.mk te.1
        (max_variant_sim audio te.2) ((tag_df te.1).getD 1)
        (max_variant_sim audio te.2 * (tag_df te.1).getD 1))).map
          ScoredTag.tag).Nodup := by
      rw [List.map_map]
      exact hnd
    have h := topk_properties ScoredTag.weighted_similarity ScoredTag.tag
      (tagEmb.map (fun te => ScoredTag.mk te.1 (max_variant_sim audio te.2)
        ((tag_df te.1).getD 1)
        (max_variant_sim audio te.2 * (tag_df te.1).getD 1))) k hmap
    refine ⟨?_, h.2.1, h.2.2⟩
    show (((sortByKeyDesc ScoredTag.weighted_similarity
        (tagEmb.map (fun te => ScoredTag.mk te.1 (max_variant_sim audio te.2)
          ((tag_df te.1).getD 1)
          (max_variant_sim audio te.2 * (tag_df te.1).getD 1)))).take k).map
            ScoredTag.tag).length = min k tagEmb.length
    rw [List.length_map, List.length_take, sortByKeyDesc_length, List.length_map]

/-- Witness for C2 at the one-tag vocabulary `[("a", [[1]])]`, `top_k = 1`. -/
theorem recommendations_shape_witness :
    1 ≤ 1
    ∧ ([("a", [[(1 : ℝ)]])].map Prod.fst).Nodup
    ∧ (((get_tag_recommendations [1] [("a", [[1]])] 1).1.length
          = min 1 [("a", [[(1 : ℝ)]])].length
        ∧ (get_tag_recommendations [1] [("a", [[1]])] 1).1.Nodup
        ∧ (get_tag_recommendations [1] [("a", [[1]])] 1).2.Pairwise
            (fun a b => b ≤ a))
      ∧ ((get_tag_recommendations_df_weighted [1] [("a", [[1]])]
            (fun _ => none) 1).1.length = min 1 [("a", [[(1 : ℝ)]])].length
        ∧ (get_tag_recommendations_df_weighted [1] [("a", [[1]])]
            (fun _ => none) 1).1.Nodup
        ∧ (get_tag_recommendations_df_weighted [1] [("a", [[1]])]
            (fun _ => none) 1).2.1.Pairwise (fun a b => b ≤ a))) :=
  ⟨le_refl 1, by decide,
    recommendations_shape [1] [("a", [[1]])] (fun _ => none) 1 (le_refl 1)
      (by decide)⟩

/-- Stability through the whole ranking pipeline: two entries of a
duplicate-free scored list with equal keys that both survive sorting and
truncation appear in the output tag list in their original input order. -/
theorem stable_take_map {α : Type*} (key : α → ℝ) (tagOf : α → String)
    (l : List α) (k : ℕ) (hnd : (l.map tagOf).Nodup) {a b : α}
    (hsub : [a, b].Sublist l) (hk : key a = key b)
    (ha : tagOf a ∈ ((sortByKeyDesc key l).take k).map tagOf)
    (hb : tagOf b ∈ ((sortByKeyDesc key l).take k).map tagOf) :
    [tagOf a, tagOf b].Sublist (((sortByKeyDesc key l).take k).map tagOf) := by
  have hperm := sortByKeyDesc_perm key l
  have hnds : ((sortByKeyDesc key l).map tagOf).Nodup :=
    ((hperm.map tagOf).nodup_iff).mpr hnd
  have hndsl : (sortByKeyDesc key l).Nodup := List.Nodup.of_map tagOf hnds
  have hpair : [a, b].Sublist (sortByKeyDesc key l) :=
    pair_sublist_sortByKeyDesc key (le_of_eq hk.symm) hsub
  obtain ⟨a', ha'mem, ha'eq⟩ := List.mem_map.mp ha
  obtain ⟨b', hb'mem, hb'eq⟩ := List.mem_map.mp hb
  have haS : a ∈ sortByKeyDesc key l :=
    hperm.mem_iff.mpr (hsub.subset (by simp))
  have hbS : b ∈ sortByKeyDesc key l :=
    hperm.mem_iff.mpr (hsub.subset (by simp))
  have ha'S : a' ∈ sortByKeyDesc key l := List.mem_of_mem_take ha'mem
  have hb'S : b' ∈ sortByKeyDesc key l := List.mem_of_mem_take hb'mem
  have hea : a' = a := List.inj_on_of_nodup_map hnds ha'S haS ha'eq
  have heb : b' = b := List.inj_on_of_nodup_map hnds hb'S hbS hb'eq
  have htake : [a, b].Sublist ((sortByKeyDesc key l).take k) :=
    pair_sublist_take _ k hndsl hpair (hea ▸ ha'mem) (heb ▸ hb'mem)
  exact List.Sublist.map tagOf htake

/-- C8: in both recommenders, two vocabulary entries with equal final scores
that both appear in the output are listed in their original vocabulary order
(the order of the association list the tag-embedding dict was built in); the
ranking is deterministic. -/
theorem equal_scores_vocabulary_order (audio : List ℝ)
    (tagEmb : List (String × List (List ℝ))) (tag_df : String → Option ℝ)
    (k : ℕ) (hnd : (tagEmb.map Prod.fst).Nodup) :
    (∀ e1 e2 : String × List (List ℝ), [e1, e2].Sublist tagEmb →
      max_variant_sim audio e1.2 = max_variant_sim audio e2.2 →
      e1.1 ∈ (get_tag_recommendations audio tagEmb k).1 →
      e2.1 ∈ (get_tag_recommendations audio tagEmb k).1 →
      [e1.1, e2.1].Sublist (get_tag_recommendations audio tagEmb k).1)
    ∧ (∀ e1 e2 : String × List (List ℝ), [e1, e2].Sublist tagEmb →
      max_variant_sim audio e1.2 * (tag_df e1.1).getD 1
        = max_variant_sim audio e2.2 * (tag_df e2.1).getD 1 →
      e1.1 ∈ (get_tag_recommendations_df_weighted audio tagEmb tag_df k).1 →
      e2.1 ∈ (get_tag_recommendations_df_weighted audio tagEmb tag_df k).1 →
      [e1.1, e2.1].Sublist
        (get_tag_recommendations_df_weighted audio tagEmb tag_df k).1) := by
  constructor
  · intro e1 e2 hsub hkey h1 h2
    exact stable_take_map (fun p : String × ℝ => p.2)
      (fun p : String × ℝ => p.1)
      (tagEmb.map (fun te => (te.1, max_variant_sim audio te.2))) k
      (by rw [List.map_map]; exact hnd)
      (List.Sublist.map _ hsub) hkey h1 h2
  · intro e1 e2 hsub hkey h1 h2
    exact stable_take_map ScoredTag.weighted_similarity ScoredTag.tag
      (tagEmb.map (fun te => ScoredTag.mk te.1 (max_variant_sim audio te.2)
        ((tag_df te.1).getD 1)
        (max_variant_sim audio te.2 * (tag_df te.1).getD 1))) k
      (by rw [List.map_map]; exact hnd)
      (List.Sublist.map _ hsub) hkey h1 h2

/-- Witness for C8 at the one-tag vocabulary `[("a", [[1]])]`. -/
theorem equal_scores_vocabulary_order_witness :
    ([("a", [[(1 : ℝ)]])].map Prod.fst).Nodup
    ∧ ((∀ e1 e2 : String × List (List ℝ),
        [e1, e2].Sublist [("a", [[(1 : ℝ)]])] →
        max_variant_sim [1] e1.2 = max_variant_sim [1] e2.2 →
        e1.1 ∈ (get_tag_recommendations [1] [("a", [[1]])] 2).1 →
        e2.1 ∈ (get_tag_recommendations [1] [("a", [[1]])] 2).1 →
        [e1.1, e2.1].Sublist (get_tag_recommendations [1] [("a", [[1]])] 2).1)
      ∧ (∀ e1 e2 : String × List (List ℝ),
        [e1, e2].Sublist [("a", [[(1 : ℝ)]])] →
        max_variant_sim [1] e1.2 * ((fun _ => none : String → Option ℝ) e1.1).getD 1
          = max_variant_sim [1] e2.2 * ((fun _ => none : String → Option ℝ) e2.1).getD 1 →
        e1.1 ∈ (get_tag_recommendations_df_weighted [1] [("a", [[1]])]
          (fun _ => none) 2).1 →
        e2.1 ∈ (get_tag_recommendations_df_weighted [1] [("a", [[1]])]
          (fun _ => none) 2).1 →
        [e1.1, e2.1].Sublist (get_tag_recommendations_df_weighted [1]
          [("a", [[1]])] (fun _ => none) 2).1)) :=
  ⟨by decide,
    equal_scores_vocabulary_order [1] [("a", [[1]])] (fun _ => none) 2
      (by decide)⟩

/-- A dot product of a vector with itself is nonnegative. -/
theorem dot_self_nonneg (v : List ℝ) : 0 ≤ dot v v := by
  induction v with
  | nil => exact le_refl _
  | cons x xs ih =>
    rw [show dot (x :: xs) (x :: xs) = x * x + dot xs xs from rfl]
    have := mul_self_nonneg x
    linarith

/-- Cosine similarity of a nonzero vector with itself is exactly 1. -/
theorem cosine_self_eq_one {v : List ℝ} (h : dot v v ≠ 0) : cosine v v = 1 := by
  unfold cosine norm2
  rw [Real.mul_self_sqrt (dot_self_nonneg v)]
  exact div_self h

/-- The running maximum of the inner semantic loop never decreases. -/
theorem gt_step_fst_le (lookup : String → Option (List ℝ)) (pe : List ℝ)
    (acc : ℝ × Option String) (g : String) :
    acc.1 ≤ (gt_step lookup pe acc g).1 := by
  unfold gt_step
  split
  · exact le_refl _
  · split
    · next h => exact le_of_lt h
    · exact le_refl _

/-- The running maximum after folding the inner loop dominates its start. -/
theorem foldl_gt_step_fst_le (lookup : String → Option (List ℝ)) (pe : List ℝ) :
    ∀ (gts : List String) (acc : ℝ × Option String),
      acc.1 ≤ (gts.foldl (gt_step lookup pe) acc).1 := by
  intro gts
  induction gts with
  | nil => intro acc; exact le_refl _
  | cons g rest ih =>
    intro acc
    exact le_trans (gt_step_fst_le lookup pe acc g) (ih _)

/-- One inner-loop step dominates the similarity of the tag it inspects. -/
theorem cosine_le_gt_step (lookup : String → Option (List ℝ)) (pe : List ℝ)
    (acc : ℝ × Option String) (g : String) (ge : List ℝ)
    (hge : lookup g = some ge) :
    cosine pe ge ≤ (gt_step lookup pe acc g).1 := by
  unfold gt_step
  rw [hge]
  dsimp only
  by_cases hc : cosine pe ge > acc.1
  · rw [if_pos hc]
  · rw [if_neg hc]
    exact le_of_not_lt hc

/-- The final running maximum of the inner loop dominates the similarity of
every ground-truth tag that has a phrase embedding. -/
theorem foldl_gt_step_ge (lookup : String → Option (List ℝ)) (pe : List ℝ)
    (g : String) (ge : List ℝ) (hge : lookup g = some ge) :
    ∀ (gts : List String), g ∈ gts → ∀ acc : ℝ × Option String,
      cosine pe ge ≤ (gts.foldl (gt_step lookup pe) acc).1 := by
  intro gts
  induction gts with
  | nil => intro h; simp at h
  | cons x rest ih =>
    intro hmem acc
    rcases List.mem_cons.mp hmem with h1 | h1
    · subst h1
      exact le_trans (cosine_le_gt_step lookup pe acc g ge hge)
        (foldl_gt_step_fst_le lookup pe rest _)
    · exact ih h1 _

/-- A predicted tag with a phrase embedding whose best ground-truth
similarity reaches the threshold ends up in the hit list. -/
theorem mem_semantic_hits (lookup : String → Option (List ℝ)) (τ : ℝ)
    (gts : List String) :
    ∀ (preds : List String) (p : String), p ∈ preds →
      ∀ pe, lookup p = some pe → τ ≤ (best_gt_match lookup pe gts).1 →
      p ∈ (semantic_hits_aux lookup τ gts preds).1 := by
  intro preds
  induction preds with
  | nil =>
    intro p h
    simp at h
  | cons q rest ih =>
    intro p hmem pe hpe hτ
    rcases List.mem_cons.mp hmem with h1 | h1
    · subst h1
      rw [semantic_hits_aux, hpe]
      dsimp only
      rw [if_pos hτ]
      exact List.mem_cons_self _ _
    · have hrec := ih p h1 pe hpe hτ
      rw [semantic_hits_aux]
      cases hlq : lookup q with
      | none => exact hrec
      | some qe =>
        dsimp only
        by_cases hc : (best_gt_match lookup qe gts).1 ≥ τ
        · rw [if_pos hc]
          exact List.mem_cons_of_mem _ hrec
        · rw [if_neg hc]
          exact hrec

/-- C4 counterexample: with the literal preconditions of the claim (a phrase
embedding exists for every predicted and ground-truth tag, threshold at most
1) the subset property fails when the common tag "a" has the zero vector as
its phrase embedding: "a" is an exact hit but not a semantic hit, because
its self-similarity under sklearn's zero-norm convention is 0 < 0.7. -/
theorem exact_subset_semantic_zero_embedding_cex :
    zeroEmbedLookup "a" = some [(0 : ℝ)]
    ∧ (7/10 : ℝ) ≤ 1
    ∧ "a" ∈ exact_hits ["a"] ["a"]
    ∧ "a" ∉ (compute_semantic_hits zeroEmbedLookup (7/10) ["a"] ["a"]).1 := by
  have hl : zeroEmbedLookup "a" = some [(0 : ℝ)] := by simp [zeroEmbedLookup]
  refine ⟨hl, by norm_num, by decide, ?_⟩
  have hc : cosine [(0 : ℝ)] [0] = 0 := by
    unfold cosine norm2
    norm_num [dot]
  have hbm : (best_gt_match zeroEmbedLookup [(0 : ℝ)] ["a"]).1 = 0 := by
    unfold best_gt_match
    rw [List.foldl_cons, List.foldl_nil]
    unfold gt_step
    rw [hl]
    dsimp only
    rw [hc, if_neg (lt_irrefl 0)]
  have hnotge : ¬ ((best_gt_match zeroEmbedLookup [(0 : ℝ)] ["a"]).1 ≥ (7/10 : ℝ)) := by
    rw [hbm]
    norm_num
  unfold compute_semantic_hits
  rw [show ["a"].map lowerStr = ["a"] from by decide]
  rw [semantic_hits_aux, hl]
  dsimp only
  rw [if_neg hnotge]
  rw [semantic_hits_aux]
  simp

/-- C4 amended: exact-mode hits are a subset of semantic-mode hits provided
every predicted and ground-truth tag has a phrase embedding that is a
nonzero vector, and the threshold is at most 1. -/
theorem exact_hits_subset_semantic_hits (lookup : String → Option (List ℝ))
    (τ : ℝ) (preds gts : List String)
    (hemb : ∀ t ∈ preds.map lowerStr ++ gts.map lowerStr,
      ∃ v, lookup t = some v ∧ dot v v ≠ 0)
    (hτ : τ ≤ 1) :
    ∀ t ∈ exact_hits preds gts,
      t ∈ (compute_semantic_hits lookup τ preds gts).1 := by
  intro t ht
  unfold exact_hits at ht
  rw [List.mem_dedup, List.mem_filter] at ht
  obtain ⟨htp, htg'⟩ := ht
  have htg : t ∈ gts.map lowerStr := by simpa using htg'
  obtain ⟨v, hv, hvnz⟩ := hemb t (List.mem_append.mpr (Or.inl htp))
  have h1 : cosine v v = 1 := cosine_self_eq_one hvnz
  have hb : cosine v v ≤ (best_gt_match lookup v (gts.map lowerStr)).1 :=
    foldl_gt_step_ge lookup v t v hv _ htg (0, none)
  have hτ' : τ ≤ (best_gt_match lookup v (gts.map lowerStr)).1 := by
    rw [h1] at hb
    linarith
  exact mem_semantic_hits lookup τ (gts.map lowerStr) _ t htp v hv hτ'

/-- Witness for the amended C4, with the all-ones phrase-embedding table. -/
theorem exact_hits_subset_semantic_hits_witness :
    (∀ t ∈ ["a"].map lowerStr ++ ["a"].map lowerStr,
      ∃ v, oneEmbedLookup t = some v ∧ dot v v ≠ 0)
    ∧ (7/10 : ℝ) ≤ 1
    ∧ ∀ t ∈ exact_hits ["a"] ["a"],
        t ∈ (compute_semantic_hits oneEmbedLookup (7/10) ["a"] ["a"]).1 := by
  have h1 : ∀ t ∈ ["a"].map lowerStr ++ ["a"].map lowerStr,
      ∃ v, oneEmbedLookup t = some v ∧ dot v v ≠ 0 := by
    intro t _
    exact ⟨[1], rfl, by norm_num [dot]⟩
  have h2 : (7/10 : ℝ) ≤ 1 := by norm_num
  exact ⟨h1, h2,
    exact_hits_subset_semantic_hits oneEmbedLookup (7/10) ["a"] ["a"] h1 h2⟩

/-- Dropping a ground-truth tag without a phrase embedding does not change
the result of the semantic hit computation at all. -/
theorem semantic_hits_aux_skip_gt (lookup : String → Option (List ℝ)) (τ : ℝ)
    (g : String) (hg : lookup g = none) (gts : List String) :
    ∀ preds, semantic_hits_aux lookup τ (g :: gts) preds
      = semantic_hits_aux lookup τ gts preds := by
  intro preds
  induction preds with
  | nil => rfl
  | cons p rest ih =>
    rw [semantic_hits_aux, semantic_hits_aux, ih]
    cases hlp : lookup p with
    | none => rfl
    | some pe =>
      have hbm : best_gt_match lookup pe (g :: gts) = best_gt_match lookup pe gts := by
        unfold best_gt_match
        rw [List.foldl_cons]
        congr 1
        unfold gt_step
        rw [hg]
      dsimp only
      rw [hbm]

/-- C6 counterexample: a predicted tag with no phrase embedding is skipped
without any trace: the complete output of `compute_semantic_hits` (the hit
list and the match list, which is everything the function returns) on a
prediction list containing "a" equals the output on the same list with "a"
absent; no skip counter exists anywhere in the result. -/
theorem semantic_skip_no_trace_cex :
    bOnlyLookup "a" = none
    ∧ compute_semantic_hits bOnlyLookup (7/10) ["a", "b"] ["b"]
        = compute_semantic_hits bOnlyLookup (7/10) ["b"] ["b"] := by
  have ha : bOnlyLookup "a" = none := by simp [bOnlyLookup]
  refine ⟨ha, ?_⟩
  unfold compute_semantic_hits
  rw [show ["a", "b"].map lowerStr = ["a", "b"] from by decide,
    show ["b"].map lowerStr = ["b"] from by decide]
  rw [semantic_hits_aux, ha]

/-- C6 amended: a predicted or ground-truth tag without a phrase embedding
is skipped silently; the output of `compute_semantic_hits` is identical to
the output for the input with that tag removed, and no skip counter is
maintained or reported. -/
theorem semantic_skip_silent (lookup : String → Option (List ℝ)) (τ : ℝ)
    (preds gts : List String) (p g : String)
    (hp : lookup (lowerStr p) = none) (hg : lookup (lowerStr g) = none) :
    compute_semantic_hits lookup τ (p :: preds) gts
      = compute_semantic_hits lookup τ preds gts
    ∧ compute_semantic_hits lookup τ preds (g :: gts)
      = compute_semantic_hits lookup τ preds gts := by
  constructor
  · unfold compute_semantic_hits
    rw [List.map_cons, semantic_hits_aux, hp]
  · unfold compute_semantic_hits
    rw [List.map_cons]
    exact semantic_hits_aux_skip_gt lookup τ (lowerStr g) hg _ _

/-- Witness for the amended C6, with the empty phrase-embedding table. -/
theorem semantic_skip_silent_witness :
    (fun _ : String => (none : Option (List ℝ))) (lowerStr "a") = none
    ∧ (compute_semantic_hits (fun _ => none) 0 ("a" :: []) []
        = compute_semantic_hits (fun _ => none) 0 [] []
      ∧ compute_semantic_hits (fun _ => none) 0 [] ("a" :: [])
        = compute_semantic_hits (fun _ => none) 0 [] []) :=
  ⟨rfl, semantic_skip_silent (fun _ => none) 0 [] [] "a" "a" rfl rfl⟩

/-- C10: the semantic hit list is collected per predicted tag without
deduplicating the matched ground-truth tags. Concretely, with every phrase
embedding equal to `[1]` and threshold 0.7, the predictions ["p", "q"]
against the single ground-truth tag ["g"] produce 2 semantic hits, more than
the ground-truth set size, and the reported recall is 2 > 1. In contrast,
exact-mode hits (a set intersection) never exceed the ground-truth size and
exact recall never exceeds 1, for every input. -/
theorem semantic_recall_unbounded_exact_bounded :
    ((compute_semantic_hits oneEmbedLookup (7/10) ["p", "q"] ["g"]).1.length = 2
      ∧ (["g"] : List String).length
          < (compute_semantic_hits oneEmbedLookup (7/10) ["p", "q"] ["g"]).1.length
      ∧ clip_recall (compute_semantic_hits oneEmbedLookup (7/10) ["p", "q"] ["g"]).1 ["g"] = 2
      ∧ (1 : ℚ) < clip_recall
          (compute_semantic_hits oneEmbedLookup (7/10) ["p", "q"] ["g"]).1 ["g"])
    ∧ (∀ preds gts : List String,
        (exact_hits preds gts).length ≤ gts.length
        ∧ clip_recall (exact_hits preds gts) gts ≤ 1) := by
  have hcos : cosine [(1 : ℝ)] [1] = 1 := by
    unfold cosine norm2
    norm_num [dot]
  have hbm : best_gt_match oneEmbedLookup [(1 : ℝ)] ["g"] = (1, some "g") := by
    unfold best_gt_match
    rw [List.foldl_cons, List.foldl_nil]
    unfold gt_step oneEmbedLookup
    dsimp only
    rw [hcos, if_pos (by norm_num : (1 : ℝ) > 0)]
  have hge : (best_gt_match oneEmbedLookup [(1 : ℝ)] ["g"]).1 ≥ (7/10 : ℝ) := by
    rw [hbm]
    norm_num
  have hstep : ∀ (p : String) (rest : List String),
      (semantic_hits_aux oneEmbedLookup (7/10) ["g"] (p :: rest)).1
        = p :: (semantic_hits_aux oneEmbedLookup (7/10) ["g"] rest).1 := by
    intro p rest
    rw [semantic_hits_aux]
    show (match oneEmbedLookup p with
      | none => semantic_hits_aux oneEmbedLookup (7/10) ["g"] rest
      | some pe =>
        if (best_gt_match oneEmbedLookup pe ["g"]).1 ≥ (7/10 : ℝ) then
          (p :: (semantic_hits_aux oneEmbedLookup (7/10) ["g"] rest).1,
           (p, (best_gt_match oneEmbedLookup pe ["g"]).2,
              (best_gt_match oneEmbedLookup pe ["g"]).1)
             :: (semantic_hits_aux oneEmbedLookup (7/10) ["g"] rest).2)
        else semantic_hits_aux oneEmbedLookup (7/10) ["g"] rest).1 = _
    rw [show oneEmbedLookup p = some [(1 : ℝ)] from rfl]
    dsimp only
    rw [if_pos hge]
  have hhits : (compute_semantic_hits oneEmbedLookup (7/10) ["p", "q"] ["g"]).1
      = ["p", "q"] := by
    unfold compute_semantic_hits
    rw [show ["p", "q"].map lowerStr = ["p", "q"] from by decide,
      show ["g"].map lowerStr = ["g"] from by decide]
    rw [hstep, hstep]
    rfl
  constructor
  · rw [hhits]
    refine ⟨rfl, by decide, ?_, ?_⟩
    · unfold clip_recall
      rw [if_pos (by simp)]
      norm_num
    · unfold clip_recall
      rw [if_pos (by simp)]
      norm_num
  · intro preds gts
    have hnd : (exact_hits preds gts).Nodup := List.nodup_dedup _
    have hsubset : exact_hits preds gts ⊆ gts.map lowerStr := by
      intro t ht
      unfold exact_hits at ht
      rw [List.mem_dedup, List.mem_filter] at ht
      simpa using ht.2
    have hlen : (exact_hits preds gts).length ≤ (gts.map lowerStr).length :=
      (hnd.subperm hsubset).length_le
    rw [List.length_map] at hlen
    refine ⟨hlen, ?_⟩
    unfold clip_recall
    by_cases hg : gts ≠ []
    · rw [if_pos hg]
      have hpos : 0 < (gts.length : ℚ) := by
        exact_mod_cast List.length_pos.mpr hg
      refine (div_le_one hpos).mpr ?_
      exact_mod_cast hlen
    · rw [if_neg hg]
      norm_num

end ClapTagging
